import Mathlib

/-!
# Verification of the `memory_lib` Memories store (tfaws-boid)

A shallow embedding of `scripts/memory_lib.py`: the confidence model,
the write-path upsert logic over the SQLite-backed tables, the override
resolver and the fork exporter are translated into pure Lean functions
over an explicit in-memory database state.

Modelling conventions:
* Python floats are modelled as exact rationals (`ℚ`).  All constants of
  the confidence model are exact decimal fractions, and the override
  boundary comparison in the source carries an explicit `1e-9` tolerance
  precisely so that exact-arithmetic reasoning matches the intent.
* SQLite tables are lists of row structures; `AUTOINCREMENT` ids are
  one larger than the current maximum id.
* The `CHECK (scope IN ('personal','team','org'))` constraint and the
  `session_id` foreign key of the schema are modelled as guards that
  make the write operations return `Except.error`, mirroring the
  `sqlite3.IntegrityError` the source raises.
* `_now()` (wall-clock time) is passed in as an explicit `now : String`
  argument.
* The SHA-256 digest used by `_error_hash` is an abstract parameter
  `digest : String → String`: no claim depends on the concrete digest
  value, only on the digest of the normalized text being a function of
  the normalized text.
-/

namespace MemoryLib

/-- ASCII whitespace recognised by Python's `str.strip` / `\s`:
space, tab, newline, carriage return, vertical tab, form feed. -/
def isPySpace (c : Char) : Bool :=
  c == ' ' || c == '\t' || c == '\n' || c == '\r' || c == '\x0b' || c == '\x0c'

/-- `str.strip()`: drop leading and trailing whitespace. -/
def pyStrip (s : List Char) : List Char :=
  ((s.dropWhile isPySpace).reverse.dropWhile isPySpace).reverse

/-- `re.sub(r"\s+", " ", ·)`: replace every maximal whitespace run by a
single space.  The boolean argument records whether the previous
character belonged to a whitespace run. -/
def collapseWsAux : Bool → List Char → List Char
  | _, [] => []
  | prevSpace, c :: rest =>
    if isPySpace c then
      if prevSpace then collapseWsAux true rest
      else ' ' :: collapseWsAux true rest
    else c :: collapseWsAux false rest

/-- `_normalize_error`: lowercase (ASCII), strip, collapse whitespace.
Python's `str.lower` is Unicode-aware; the claims only involve ASCII
case variants, for which `Char.toLower` agrees. -/
def normalize_error (error_text : String) : String :=
  ⟨collapseWsAux false (pyStrip (error_text.data.map Char.toLower))⟩

/-- `_error_hash`: digest of the normalized error text.  `digest`
abstracts SHA-256 (`hashlib.sha256(...).hexdigest()`). -/
def error_hash (digest : String → String) (error_text : String) : String :=
  digest (normalize_error error_text)

-- ── Confidence model constants (exact rationals) ─────────────────────

def CONFIDENCE_BASE : ℚ := 0.5
def CORRECTION_DELTA : ℚ := 0.2
def REINFORCE_DELTA : ℚ := 0.1
def CONTRADICTION_RESET : ℚ := 0.3
def SINGLE_SESSION_CEILING : ℚ := 0.7
def SESSION_BONUS_PER : ℚ := 0.05
def SESSION_BONUS_CAP : ℚ := 0.2
def CONFIDENCE_CAP : ℚ := 1.0

/-- `effective_confidence(raw, distinct_sessions)` from the source:
single-session conventions are capped at `SINGLE_SESSION_CEILING`;
multi-session conventions get a bonus of up to `SESSION_BONUS_CAP`. -/
def effective_confidence (raw : ℚ) (distinct_sessions : ℤ) : ℚ :=
  if distinct_sessions ≤ 1 then min raw SINGLE_SESSION_CEILING
  else
    min (raw + min (((distinct_sessions : ℚ) - 1) * SESSION_BONUS_PER) SESSION_BONUS_CAP)
      CONFIDENCE_CAP

-- ── Rows and database state ──────────────────────────────────────────

/-- A row of the `fixes` table.  Column defaults (`validated 0`,
`scope 'personal'`, `hit_count 1`, timestamp defaults) follow the v2
schema (spec §6). -/
structure FixRow where
  id : Nat
  error_hash : String
  error_text : String
  root_cause : String
  fix : String
  resource : Option String
  provider : Option String
  validated : Int
  scope : String
  created_at : String
  updated_at : String
  hit_count : Nat
  session_id : Option String
deriving DecidableEq

/-- A row of the `conventions` table.  The `example` column is renamed
`example_text` because `example` is a Lean keyword. -/
structure ConvRow where
  id : Nat
  category : String
  pattern : String
  example_text : Option String
  source : String
  scope : String
  created_at : String
  updated_at : String
  confidence : ℚ
  session_id : Option String
  distinct_sessions : ℤ
deriving DecidableEq

/-- A row of the `quirks` table. -/
structure QuirkRow where
  id : Nat
  service : String
  description : String
  region : Option String
  workaround : Option String
  scope : String
  created_at : String
  updated_at : String
  session_id : Option String
deriving DecidableEq

/-- The Memories database state.  Sessions are represented by their
`session_id` strings (the only column the modelled operations read).
The `metadata` table is not touched by any modelled operation. -/
structure MemDB where
  fixes : List FixRow
  conventions : List ConvRow
  quirks : List QuirkRow
  sessions : List String
deriving DecidableEq

def MemDB.empty : MemDB := ⟨[], [], [], []⟩

/-- The schema's `CHECK (scope IN ('personal','team','org'))`. -/
def validScope (s : String) : Bool :=
  s == "personal" || s == "team" || s == "org"

/-- The schema's `session_id` foreign key into `sessions`: `NULL` is
allowed, a non-null id must name an existing session row. -/
def sessionOk (db : MemDB) : Option String → Bool
  | none => true
  | some sid => db.sessions.contains sid

/-- Python truthiness of an optional string (`if session_id:`): `None`
and the empty string are falsy. -/
def pyTruthy : Option String → Bool
  | none => false
  | some s => s != ""

/-- Next `AUTOINCREMENT` id of the `fixes` table. -/
def nextFixId (db : MemDB) : Nat :=
  (db.fixes.map FixRow.id).foldr max 0 + 1

/-- Next `AUTOINCREMENT` id of the `conventions` table. -/
def nextConvId (db : MemDB) : Nat :=
  (db.conventions.map ConvRow.id).foldr max 0 + 1

-- ── Override resolver ────────────────────────────────────────────────

/-- The override reason the source formats into a string:
`"<scope>-scoped"`, `"validated fix"`, or
`"confidence <eff> >= 0.8"` (the reason records the computed effective
confidence, carried here as data instead of decimal text). -/
inductive OverrideReason where
  | scoped (scope : String)
  | validatedFix
  | confidenceGe (eff : ℚ)
deriving DecidableEq

/-- `_should_override(fix)`: decides whether a Memory fix overrides
Canon, together with the reason. -/
def should_override (fix : FixRow) : Bool × Option OverrideReason :=
  if fix.scope == "team" || fix.scope == "org" then
    (true, some (.scoped fix.scope))
  else if fix.scope == "personal" then
    if fix.validated == 1 then (true, some .validatedFix)
    else (false, none)
  else (false, none)

/-- `_should_override_convention(conv)`: team/org scope always
overrides; personal scope overrides iff the effective confidence
reaches `0.8` up to the source's `1e-9` tolerance. -/
def should_override_convention (conv : ConvRow) : Bool × Option OverrideReason :=
  if conv.scope == "team" || conv.scope == "org" then
    (true, some (.scoped conv.scope))
  else if conv.scope == "personal" then
    let eff := effective_confidence conv.confidence conv.distinct_sessions
    if eff ≥ 0.8 - 1e-9 then (true, some (.confidenceGe eff))
    else (false, none)
  else (false, none)

-- ── Write operations ─────────────────────────────────────────────────

/-- The update applied by `record_fix` to an existing row:
`hit_count + 1`, fresh `updated_at`. -/
def bumpFix (now : String) (f : FixRow) : FixRow :=
  { f with hit_count := f.hit_count + 1, updated_at := now }

/-- `record_fix`: upsert keyed on `error_hash`.  An existing row gets
its hit count bumped; otherwise a new row is inserted (subject to the
schema's scope check and session foreign key). -/
def record_fix (digest : String → String) (db : MemDB) (now : String)
    (error_text root_cause fix : String)
    (resource provider : Option String) (validated : Int)
    (scope : String) (session_id : Option String) :
    Except String (Nat × MemDB) :=
  let eh := error_hash digest error_text
  match db.fixes.find? (fun r => r.error_hash == eh) with
  | some existing =>
      .ok (existing.id,
        { db with fixes := db.fixes.map (fun r =>
            if r.id == existing.id then bumpFix now r else r) })
  | none =>
      if validScope scope && sessionOk db session_id then
        let rid := nextFixId db
        .ok (rid, { db with fixes := db.fixes ++
          [⟨rid, eh, error_text, root_cause, fix, resource, provider,
            validated, scope, now, now, 1, session_id⟩] })
      else .error "IntegrityError"

/-- `record_convention`: upsert keyed on `(category, pattern)`.  An
existing row gets `CORRECTION_DELTA` applied to its confidence, the
supplied session id stored unconditionally, and `distinct_sessions`
bumped only when the supplied session id is truthy and differs from
the stored one.  A new row starts at `CONFIDENCE_BASE` with
`distinct_sessions = 1`. -/
def record_convention (db : MemDB) (now : String)
    (category pattern : String) (example_text : Option String)
    (source : String) (scope : String) (session_id : Option String) :
    Except String (Nat × MemDB) :=
  match db.conventions.find? (fun r =>
      r.category == category && r.pattern == pattern) with
  | some existing =>
      if sessionOk db session_id then
        let new_confidence := min (existing.confidence + CORRECTION_DELTA) CONFIDENCE_CAP
        let new_distinct :=
          if pyTruthy session_id && session_id != existing.session_id then
            existing.distinct_sessions + 1
          else existing.distinct_sessions
        .ok (existing.id,
          { db with conventions := db.conventions.map (fun r =>
              if r.id == existing.id then
                { r with confidence := new_confidence,
                         distinct_sessions := new_distinct,
                         session_id := session_id,
                         updated_at := now }
              else r) })
      else .error "IntegrityError"
  | none =>
      if validScope scope && sessionOk db session_id then
        let rid := nextConvId db
        .ok (rid, { db with conventions := db.conventions ++
          [⟨rid, category, pattern, example_text, source, scope, now, now,
            CONFIDENCE_BASE, session_id, 1⟩] })
      else .error "IntegrityError"

/-- `reinforce_convention`: raises `ValueError` (here `.error`) when the
id does not exist; otherwise applies `REINFORCE_DELTA` and the
distinct-session bump rule, keeping the stored session id unless a
truthy, differing one is supplied. -/
def reinforce_convention (db : MemDB) (now : String) (convention_id : Nat)
    (session_id : Option String) : Except String (ℚ × MemDB) :=
  match db.conventions.find? (fun r => r.id == convention_id) with
  | none => .error ("Convention " ++ toString convention_id ++ " not found")
  | some row =>
      let new_confidence := min (row.confidence + REINFORCE_DELTA) CONFIDENCE_CAP
      let bump := pyTruthy session_id && session_id != row.session_id
      let new_distinct := if bump then row.distinct_sessions + 1 else row.distinct_sessions
      let update_session_id := if bump then session_id else row.session_id
      if sessionOk db update_session_id then
        .ok (new_confidence,
          { db with conventions := db.conventions.map (fun r =>
              if r.id == convention_id then
                { r with confidence := new_confidence,
                         distinct_sessions := new_distinct,
                         session_id := update_session_id,
                         updated_at := now }
              else r) })
      else .error "IntegrityError"

/-- `contradict_convention`: resets confidence via a bare SQL UPDATE.
The source performs no existence check; an UPDATE matching zero rows
succeeds silently, so the operation never fails.  The result type is
`Except` so that its failure behaviour can be compared with
`reinforce_convention`. -/
def contradict_convention (db : MemDB) (now : String) (convention_id : Nat) :
    Except String (ℚ × MemDB) :=
  .ok (CONTRADICTION_RESET,
    { db with conventions := db.conventions.map (fun r =>
        if r.id == convention_id then
          { r with confidence := CONTRADICTION_RESET, updated_at := now }
        else r) })

-- ── Read path and merged query ───────────────────────────────────────

/-- `lookup_fix(conn, error_text=...)`: exact match on the normalized
hash, `ORDER BY hit_count DESC` (modelled as a stable merge sort). -/
def lookup_fix (digest : String → String) (db : MemDB) (error_text : String) :
    List FixRow :=
  let eh := error_hash digest error_text
  (db.fixes.filter (fun r => r.error_hash == eh)).mergeSort
    (fun a b => decide (b.hit_count ≤ a.hit_count))

inductive SourceTag where
  | canon
  | memory
deriving DecidableEq

/-- One element of the `merged` list of `query_with_priority`.  Canon
entries are opaque to the resolver, hence the type parameter. -/
structure MergedEntry (α : Type) where
  source : SourceTag
  overrides_canon : Bool
  override_reason : Option OverrideReason
  entry : α ⊕ FixRow
deriving DecidableEq

/-- The result record of `query_with_priority`. -/
structure QueryResult (α : Type) where
  canon_results : List α
  memory_results : List FixRow
  merged : List (MergedEntry α)
deriving DecidableEq

/-- Wrap one memory fix as a merged entry, with its override verdict. -/
def classifyFix {α : Type} (fix : FixRow) : MergedEntry α :=
  let p := should_override fix
  ⟨.memory, p.1, p.2, .inr fix⟩

/-- Wrap one canon result as a merged entry. -/
def canonEntry {α : Type} (c : α) : MergedEntry α :=
  ⟨.canon, false, none, .inl c⟩

/-- `query_with_priority`: look up Canon (results supplied by the
external corpus matcher) and Memories, classify the memory fixes, and
merge: overriding memory entries, then canon entries, then
non-overriding memory entries. -/
def query_with_priority {α : Type} (digest : String → String)
    (canon_results : List α) (db : MemDB) (error_text : String) :
    QueryResult α :=
  let memory_fixes := lookup_fix digest db error_text
  let classified := memory_fixes.map (fun f => (classifyFix f : MergedEntry α))
  let overriding := classified.filter (fun e => e.overrides_canon)
  let non_overriding := classified.filter (fun e => !e.overrides_canon)
  let canon_entries := canon_results.map (fun c => (canonEntry c : MergedEntry α))
  ⟨canon_results, memory_fixes, overriding ++ canon_entries ++ non_overriding⟩

-- ── Fork export ──────────────────────────────────────────────────────

/-- Scopes qualifying for a fork: `"org"` keeps only org entries, any
other filter (the default `"team"`) keeps team and org entries. -/
def forkScopes (scope_filter : String) : List String :=
  if scope_filter == "org" then ["org"] else ["team", "org"]

/-- The destination-side insert loop for fixes: fresh sequential ids,
`session_id = NULL`, all other columns copied verbatim. -/
def copyFixRows : Nat → List FixRow → List FixRow
  | _, [] => []
  | n, f :: rest => { f with id := n, session_id := none } :: copyFixRows (n + 1) rest

/-- The insert loop for conventions: fresh ids, `session_id = NULL`,
`distinct_sessions = 1`, confidence and the rest copied verbatim. -/
def copyConvRows : Nat → List ConvRow → List ConvRow
  | _, [] => []
  | n, c :: rest =>
      { c with id := n, session_id := none, distinct_sessions := 1 } ::
        copyConvRows (n + 1) rest

/-- The insert loop for quirks: fresh ids, `session_id = NULL`. -/
def copyQuirkRows : Nat → List QuirkRow → List QuirkRow
  | _, [] => []
  | n, q :: rest => { q with id := n, session_id := none } :: copyQuirkRows (n + 1) rest

/-- `export_for_fork` (content part): the destination database built
from the source rows whose scope qualifies; the sessions table is never
copied. -/
def export_for_fork (src : MemDB) (scope_filter : String) : MemDB :=
  let scopes := forkScopes scope_filter
  { fixes := copyFixRows 1 (src.fixes.filter (fun f => scopes.contains f.scope)),
    conventions := copyConvRows 1 (src.conventions.filter (fun c => scopes.contains c.scope)),
    quirks := copyQuirkRows 1 (src.quirks.filter (fun q => scopes.contains q.scope)),
    sessions := [] }

/-- The non-id, non-session content of a fix row — the columns a fork
copies verbatim. -/
def FixRow.core (f : FixRow) :=
  (f.error_hash, f.error_text, f.root_cause, f.fix, f.resource, f.provider,
   f.validated, f.scope, f.created_at, f.updated_at, f.hit_count)

/-- The non-id, non-session, non-distinct content of a convention row —
the columns a fork copies verbatim (including the confidence). -/
def ConvRow.core (c : ConvRow) :=
  (c.category, c.pattern, c.example_text, c.source, c.scope, c.created_at,
   c.updated_at, c.confidence)

/-- The non-id, non-session content of a quirk row. -/
def QuirkRow.core (q : QuirkRow) :=
  (q.service, q.description, q.region, q.workaround, q.scope, q.created_at,
   q.updated_at)

/-- Filesystem state around a fork export: the contents of the source
and destination paths (`none` = absent or unreadable) and whether the
destination directory can be created. -/
structure ForkFS where
  srcFile : Option MemDB
  dstFile : Option MemDB
  mkdirOk : Bool
deriving DecidableEq

/-- Filesystem-level model of `export_for_fork`, following the source's
order of effects: (1) create the destination directory — on failure the
exception propagates with the filesystem untouched; (2) unlink an
existing destination file; (3) create the destination file and run the
v2 schema script on it; (4) open and read the source — if the source
database is unreadable the first SELECT raises, and the exception
propagates leaving the schema-initialized destination file behind (the
source has no try/except and deletes nothing on failure); (5) copy the
qualifying rows and commit. -/
def export_for_fork_io (fs : ForkFS) (scope_filter : String) :
    Except String MemDB × ForkFS :=
  if !fs.mkdirOk then (.error "cannot create destination directory", fs)
  else
    let fs1 := { fs with dstFile := some MemDB.empty }
    match fs.srcFile with
    | none => (.error "cannot read source database", fs1)
    | some src =>
        let dst := export_for_fork src scope_filter
        (.ok dst, { fs1 with dstFile := some dst })

-- ── General list helpers ─────────────────────────────────────────────

/-- `find?` over a list decomposed around the first element satisfying
the predicate. -/
theorem find_decomp {α : Type} (p : α → Bool) (l1 l2 : List α) (x : α)
    (hx : p x = true) (h1 : ∀ y ∈ l1, p y = false) :
    (l1 ++ x :: l2).find? p = some x := by
  induction l1 with
  | nil => simpa using List.find?_cons_of_pos l2 hx
  | cons a t ih =>
      have ha : ¬ p a = true := by simp [h1 a (by simp)]
      rw [List.cons_append, List.find?_cons_of_neg _ ha]
      exact ih (fun y hy => h1 y (by simp [hy]))

/-- Mapping a guarded update over a list touches exactly the elements
satisfying the guard; with the guard false on both sides, only the
middle element changes. -/
theorem map_update_decomp {α : Type} (p : α → Bool) (f : α → α) (l1 l2 : List α)
    (x : α) (hx : p x = true) (h1 : ∀ y ∈ l1, p y = false)
    (h2 : ∀ y ∈ l2, p y = false) :
    (l1 ++ x :: l2).map (fun r => if p r then f r else r) = l1 ++ f x :: l2 := by
  induction l1 with
  | nil =>
      simp only [List.nil_append, List.map_cons, hx, if_pos]
      congr 1
      induction l2 with
      | nil => rfl
      | cons b t ihb =>
          have hb : p b = false := h2 b (by simp)
          simp only [List.map_cons, hb, if_neg, Bool.false_eq_true, not_false_iff]
          exact congrArg _ (ihb (fun y hy => h2 y (by simp [hy])))
  | cons a t ih =>
      have ha : p a = false := h1 a (by simp)
      simp only [List.cons_append, List.map_cons, ha, if_neg, Bool.false_eq_true,
        not_false_iff]
      exact congrArg _ (ih (fun y hy => h1 y (by simp [hy])))

/-- A guarded update whose guard holds nowhere is the identity. -/
theorem map_update_none {α : Type} (p : α → Bool) (f : α → α) (l : List α)
    (h : ∀ y ∈ l, p y = false) :
    l.map (fun r => if p r then f r else r) = l := by
  induction l with
  | nil => rfl
  | cons a t ih =>
      have ha : p a = false := h a (by simp)
      simp only [List.map_cons, ha, if_neg, Bool.false_eq_true, not_false_iff]
      exact congrArg _ (ih (fun y hy => h y (by simp [hy])))

-- ── Upsert evaluation lemmas ────────────────────────────────────────
theorem record_fix_update_eq (digest : String → String) (db : MemDB)
    (now error_text root_cause fx : String) (resource provider : Option String)
    (validated : Int) (scope : String) (session_id : Option String)
    (l1 l2 : List FixRow) (ex : FixRow)
    (hdb : db.fixes = l1 ++ ex :: l2)
    (hex : ex.error_hash = error_hash digest error_text)
    (h1 : ∀ y ∈ l1, y.error_hash ≠ error_hash digest error_text)
    (hids1 : ∀ y ∈ l1, y.id ≠ ex.id) (hids2 : ∀ y ∈ l2, y.id ≠ ex.id) :
    record_fix digest db now error_text root_cause fx resource provider validated
        scope session_id
      = .ok (ex.id, { db with fixes := l1 ++ bumpFix now ex :: l2 }) := by
  have hfind : db.fixes.find? (fun r => r.error_hash == error_hash digest error_text)
      = some ex := by
    rw [hdb]
    exact find_decomp _ _ _ _ (by simp [hex]) (fun y hy => by simp [h1 y hy])
  have hmap : db.fixes.map (fun r => if r.id == ex.id then bumpFix now r else r)
      = l1 ++ bumpFix now ex :: l2 := by
    rw [hdb]
    exact map_update_decomp _ _ _ _ _ (by simp) (fun y hy => by simp [hids1 y hy])
      (fun y hy => by simp [hids2 y hy])
  simp only [record_fix, hfind, hmap]

theorem record_fix_insert_eq (digest : String → String) (db : MemDB)
    (now error_text root_cause fx : String) (resource provider : Option String)
    (validated : Int) (scope : String) (session_id : Option String)
    (hnone : ∀ y ∈ db.fixes, y.error_hash ≠ error_hash digest error_text)
    (hvs : validScope scope = true) (hsess : sessionOk db session_id = true) :
    record_fix digest db now error_text root_cause fx resource provider validated
        scope session_id
      = .ok (nextFixId db, { db with fixes := db.fixes ++
          [⟨nextFixId db, error_hash digest error_text, error_text, root_cause, fx,
            resource, provider, validated, scope, now, now, 1, session_id⟩] }) := by
  have hfind : db.fixes.find? (fun r => r.error_hash == error_hash digest error_text)
      = none :=
    List.find?_eq_none.mpr (fun x hx => by simp [hnone x hx])
  simp only [record_fix, hfind, hvs, hsess, Bool.and_self, if_true]

theorem record_convention_update_eq (db : MemDB) (now category pattern : String)
    (example_text : Option String) (source scope : String) (session_id : Option String)
    (l1 l2 : List ConvRow) (ex : ConvRow)
    (hdb : db.conventions = l1 ++ ex :: l2)
    (hcat : ex.category = category) (hpat : ex.pattern = pattern)
    (h1 : ∀ y ∈ l1, ¬(y.category = category ∧ y.pattern = pattern))
    (hids1 : ∀ y ∈ l1, y.id ≠ ex.id) (hids2 : ∀ y ∈ l2, y.id ≠ ex.id)
    (hsess : sessionOk db session_id = true) :
    record_convention db now category pattern example_text source scope session_id
      = .ok (ex.id, { db with conventions := l1 ++
          { ex with
            confidence := min (ex.confidence + CORRECTION_DELTA) CONFIDENCE_CAP,
            distinct_sessions :=
              if pyTruthy session_id && session_id != ex.session_id then
                ex.distinct_sessions + 1
              else ex.distinct_sessions,
            session_id := session_id,
            updated_at := now } :: l2 }) := by
  have hfind : db.conventions.find?
      (fun r => r.category == category && r.pattern == pattern) = some ex := by
    rw [hdb]
    refine find_decomp _ _ _ _ (by simp [hcat, hpat]) (fun y hy => ?_)
    have := h1 y hy
    simp only [not_and] at this
    by_cases hc : y.category = category
    · simp [hc, this hc]
    · simp [hc]
  have hmap : db.conventions.map (fun r =>
        if r.id == ex.id then
          { r with
            confidence := min (ex.confidence + CORRECTION_DELTA) CONFIDENCE_CAP,
            distinct_sessions :=
              if pyTruthy session_id && session_id != ex.session_id then
                ex.distinct_sessions + 1
              else ex.distinct_sessions,
            session_id := session_id,
            updated_at := now }
        else r)
      = l1 ++ { ex with
            confidence := min (ex.confidence + CORRECTION_DELTA) CONFIDENCE_CAP,
            distinct_sessions :=
              if pyTruthy session_id && session_id != ex.session_id then
                ex.distinct_sessions + 1
              else ex.distinct_sessions,
            session_id := session_id,
            updated_at := now } :: l2 := by
    rw [hdb]
    exact map_update_decomp _ _ _ _ _ (by simp) (fun y hy => by simp [hids1 y hy])
      (fun y hy => by simp [hids2 y hy])
  simp only [record_convention, hfind, hsess, if_true, hmap]

theorem record_convention_insert_eq (db : MemDB) (now category pattern : String)
    (example_text : Option String) (source scope : String) (session_id : Option String)
    (hnone : ∀ r ∈ db.conventions, ¬(r.category = category ∧ r.pattern = pattern))
    (hvs : validScope scope = true) (hsess : sessionOk db session_id = true) :
    record_convention db now category pattern example_text source scope session_id
      = .ok (nextConvId db, { db with conventions := db.conventions ++
          [⟨nextConvId db, category, pattern, example_text, source, scope, now, now,
            CONFIDENCE_BASE, session_id, 1⟩] }) := by
  have hfind : db.conventions.find?
      (fun r => r.category == category && r.pattern == pattern) = none := by
    refine List.find?_eq_none.mpr (fun x hx => ?_)
    have := hnone x hx
    simp only [not_and] at this
    by_cases hc : x.category = category
    · simp [hc, this hc]
    · simp [hc]
  simp only [record_convention, hfind, hvs, hsess, Bool.and_self, if_true]

theorem reinforce_convention_update_eq (db : MemDB) (now : String)
    (convention_id : Nat) (session_id : Option String)
    (l1 l2 : List ConvRow) (ex : ConvRow)
    (hdb : db.conventions = l1 ++ ex :: l2)
    (hid : ex.id = convention_id)
    (hids1 : ∀ y ∈ l1, y.id ≠ convention_id) (hids2 : ∀ y ∈ l2, y.id ≠ convention_id)
    (hsess : sessionOk db
      (if pyTruthy session_id && session_id != ex.session_id then session_id
       else ex.session_id) = true) :
    reinforce_convention db now convention_id session_id
      = .ok (min (ex.confidence + REINFORCE_DELTA) CONFIDENCE_CAP,
        { db with conventions := l1 ++
          { ex with
            confidence := min (ex.confidence + REINFORCE_DELTA) CONFIDENCE_CAP,
            distinct_sessions :=
              if pyTruthy session_id && session_id != ex.session_id then
                ex.distinct_sessions + 1
              else ex.distinct_sessions,
            session_id :=
              if pyTruthy session_id && session_id != ex.session_id then session_id
              else ex.session_id,
            updated_at := now } :: l2 }) := by
  have hfind : db.conventions.find? (fun r => r.id == convention_id) = some ex := by
    rw [hdb]
    exact find_decomp _ _ _ _ (by simp [hid]) (fun y hy => by simp [hids1 y hy])
  have hmap : db.conventions.map (fun r =>
        if r.id == convention_id then
          { r with
            confidence := min (ex.confidence + REINFORCE_DELTA) CONFIDENCE_CAP,
            distinct_sessions :=
              if pyTruthy session_id && session_id != ex.session_id then
                ex.distinct_sessions + 1
              else ex.distinct_sessions,
            session_id :=
              if pyTruthy session_id && session_id != ex.session_id then session_id
              else ex.session_id,
            updated_at := now }
        else r)
      = l1 ++ { ex with
            confidence := min (ex.confidence + REINFORCE_DELTA) CONFIDENCE_CAP,
            distinct_sessions :=
              if pyTruthy session_id && session_id != ex.session_id then
                ex.distinct_sessions + 1
              else ex.distinct_sessions,
            session_id :=
              if pyTruthy session_id && session_id != ex.session_id then session_id
              else ex.session_id,
            updated_at := now } :: l2 := by
    rw [hdb]
    refine map_update_decomp _ _ _ _ _ (by simp [hid]) (fun y hy => by simp [hids1 y hy])
      (fun y hy => by simp [hids2 y hy])
  simp only [reinforce_convention, hfind, hsess, if_true, hmap]

-- ── C1: the effective-confidence formula ─────────────────────────────

/-- C1: `effective_confidence(raw, distinct_sessions)` returns
`min(raw, 0.7)` when `distinct_sessions ≤ 1` and otherwise
`min(raw + min((distinct_sessions − 1) × 0.05, 0.2), 1.0)`; in
particular `effective_confidence(raw, 1) = min(raw, 0.7)` for all
`raw ∈ [0, 1]`. -/
theorem effective_confidence_formula (raw : ℚ) (n : ℤ) :
    (n ≤ 1 → effective_confidence raw n = min raw 0.7) ∧
    (1 < n →
      effective_confidence raw n =
        min (raw + min (((n : ℚ) - 1) * 0.05) 0.2) 1) ∧
    (0 ≤ raw → raw ≤ 1 → effective_confidence raw 1 = min raw 0.7) := by
  refine ⟨fun h => ?_, fun h => ?_, fun _ _ => ?_⟩
  · simp [effective_confidence, SINGLE_SESSION_CEILING, h]
  · simp only [effective_confidence, SESSION_BONUS_PER, SESSION_BONUS_CAP,
      CONFIDENCE_CAP, not_le.mpr h, if_false]
    norm_num
  · simp [effective_confidence, SINGLE_SESSION_CEILING]

/-- Witness for C1 at concrete inputs. -/
theorem effective_confidence_formula_witness :
    effective_confidence 0.9 1 = min 0.9 0.7 ∧
    effective_confidence 0.7 3 = min (0.7 + min ((((3 : ℤ) : ℚ) - 1) * 0.05) 0.2) 1 :=
  ⟨(effective_confidence_formula 0.9 1).1 (by norm_num),
   (effective_confidence_formula 0.7 3).2.1 (by norm_num)⟩

-- ── C2: the convention override rule ─────────────────────────────────

/-- C2: `_should_override_convention` classifies team- and org-scoped
conventions as overriding; a personal convention overrides iff its
effective confidence reaches `0.8` (up to the source's `1e-9`
tolerance), the reason recording the computed value.  A personal
convention with raw confidence `0.7` and `3` distinct sessions has
effective confidence exactly `0.8` and overrides; effective confidence
`0.79` does not override. -/
theorem should_override_convention_rule (conv : ConvRow) :
    (conv.scope = "team" ∨ conv.scope = "org" →
      should_override_convention conv = (true, some (.scoped conv.scope))) ∧
    (conv.scope = "personal" →
      ((should_override_convention conv).1 = true ↔
        effective_confidence conv.confidence conv.distinct_sessions ≥ 0.8 - 1e-9)) ∧
    (conv.scope = "personal" →
      effective_confidence conv.confidence conv.distinct_sessions ≥ 0.8 - 1e-9 →
      should_override_convention conv =
        (true, some (.confidenceGe
          (effective_confidence conv.confidence conv.distinct_sessions)))) ∧
    effective_confidence 0.7 3 = 0.8 ∧
    (conv.scope = "personal" → conv.confidence = 0.7 → conv.distinct_sessions = 3 →
      (should_override_convention conv).1 = true) ∧
    (conv.scope = "personal" →
      effective_confidence conv.confidence conv.distinct_sessions = 0.79 →
      (should_override_convention conv).1 = false) := by
  have h08 : effective_confidence 0.7 3 = 0.8 := by
    norm_num [effective_confidence, SESSION_BONUS_PER, SESSION_BONUS_CAP,
      CONFIDENCE_CAP, min_def]
  refine ⟨?_, ?_, ?_, h08, ?_, ?_⟩
  · rintro (h | h) <;> simp [should_override_convention, h]
  · intro h
    simp only [should_override_convention, h]
    rw [if_neg (by simp), if_pos (by simp)]
    split_ifs with hc
    · exact iff_of_true rfl hc
    · exact iff_of_false (by simp) hc
  · intro h hge
    simp only [should_override_convention, h]
    rw [if_neg (by simp), if_pos (by simp), if_pos hge]
  · intro h hc hd
    simp only [should_override_convention, h, hc, hd]
    rw [if_neg (by simp), if_pos (by simp), if_pos (by rw [h08]; norm_num)]
  · intro h he
    simp only [should_override_convention, h, he]
    rw [if_neg (by simp), if_pos (by simp), if_neg (by norm_num)]

/-- Witness for C2 at concrete conventions. -/
theorem should_override_convention_rule_witness :
    (should_override_convention
        ⟨1, "naming", "kebab", none, "correction", "personal", "t", "t", 0.7, none, 3⟩).1
      = true ∧
    should_override_convention
        ⟨2, "naming", "kebab", none, "correction", "team", "t", "t", 0.5, none, 1⟩
      = (true, some (.scoped "team")) :=
  ⟨(should_override_convention_rule _).2.2.2.2.1 rfl rfl rfl,
   (should_override_convention_rule _).1 (Or.inl rfl)⟩

-- ── C8: the fix override rule ────────────────────────────────────────

/-- C8 (amended): `_should_override` returns `(true, "<scope>-scoped")`
for team/org scope, `(true, "validated fix")` for a validated personal
fix, and `(false, null)` for an unvalidated personal fix.  Re-recording
the same normalized error through `record_fix` takes the update path,
which leaves every row's `validated` field unchanged (it only bumps
`hit_count` and `updated_at`), so re-recording with `validated = 1`
does not make the stored fix override. -/
theorem should_override_rule (digest : String → String) (db : MemDB)
    (now error_text root_cause fx : String) (resource provider : Option String)
    (validated : Int) (scope : String) (session_id : Option String)
    (fix ex : FixRow)
    (hfind : db.fixes.find? (fun r => r.error_hash == error_hash digest error_text)
      = some ex) :
    (fix.scope = "team" ∨ fix.scope = "org" →
      should_override fix = (true, some (.scoped fix.scope))) ∧
    (fix.scope = "personal" → fix.validated = 1 →
      should_override fix = (true, some .validatedFix)) ∧
    (fix.scope = "personal" → fix.validated ≠ 1 →
      should_override fix = (false, none)) ∧
    record_fix digest db now error_text root_cause fx resource provider
        validated scope session_id
      = .ok (ex.id, { db with fixes := db.fixes.map (fun r =>
          if r.id == ex.id then bumpFix now r else r) }) ∧
    (db.fixes.map (fun r => if r.id == ex.id then bumpFix now r else r)).map
        FixRow.validated
      = db.fixes.map FixRow.validated := by
  refine ⟨?_, ?_, ?_, ?_, ?_⟩
  · rintro (h | h) <;> simp [should_override, h]
  · intro h hv
    simp [should_override, h, hv]
  · intro h hv
    simp [should_override, h, beq_iff_eq, hv]
  · simp only [record_fix, hfind]
  · rw [List.map_map]
    apply List.map_congr_left
    intro a _
    by_cases hid : (a.id == ex.id) = true
    · simp [hid, bumpFix, Function.comp]
    · simp [hid, Function.comp]

/-- Witness for C8's amended theorem at a concrete store: the update
path with `validated = 1` leaves the stored `validated = 0`
untouched. -/
theorem should_override_rule_witness :
    should_override
        ⟨2, "h2", "e", "rc", "fx", none, none, 1, "personal", "t", "t", 1, none⟩
      = (true, some .validatedFix) ∧
    record_fix (fun s => s)
        ⟨[⟨1, "error x", "Error X", "rc", "fx", none, none, 0, "personal", "t", "t", 1, none⟩],
          [], [], []⟩
        "t2" "Error X" "rc" "fx" none none 1 "personal" none
      = .ok (1, ⟨[⟨1, "error x", "Error X", "rc", "fx", none, none, 0, "personal", "t", "t2", 2, none⟩],
          [], [], []⟩) := by
  have h := should_override_rule (fun s => s)
    ⟨[⟨1, "error x", "Error X", "rc", "fx", none, none, 0, "personal", "t", "t", 1, none⟩],
      [], [], []⟩
    "t2" "Error X" "rc" "fx" none none 1 "personal" none
    ⟨2, "h2", "e", "rc", "fx", none, none, 1, "personal", "t", "t", 1, none⟩
    ⟨1, "error x", "Error X", "rc", "fx", none, none, 0, "personal", "t", "t", 1, none⟩
    rfl
  exact ⟨h.2.1 rfl rfl, h.2.2.2.1⟩

/-- C8 counterexample: insert a personal fix with `validated = 0`, then
re-record the same normalized error (case/whitespace variant) with
`validated = 1`.  The stored row still has `validated = 0` and
`_should_override` still returns `(false, null)`, contradicting the
claim that the re-recorded fix overrides with reason "validated
fix". -/
theorem record_fix_revalidate_refuted :
    record_fix (fun s => s) MemDB.empty "t" "Error X" "rc" "fx" none none 0
        "personal" none
      = .ok (1, ⟨[⟨1, "error x", "Error X", "rc", "fx", none, none, 0, "personal",
          "t", "t", 1, none⟩], [], [], []⟩) ∧
    record_fix (fun s => s)
        ⟨[⟨1, "error x", "Error X", "rc", "fx", none, none, 0, "personal", "t", "t",
          1, none⟩], [], [], []⟩
        "t2" "error  x" "rc" "fx" none none 1 "personal" none
      = .ok (1, ⟨[⟨1, "error x", "Error X", "rc", "fx", none, none, 0, "personal",
          "t", "t2", 2, none⟩], [], [], []⟩) ∧
    should_override
        ⟨1, "error x", "Error X", "rc", "fx", none, none, 0, "personal", "t", "t2",
          2, none⟩
      = (false, none) :=
  ⟨rfl, rfl, rfl⟩

-- ── C5: missing-id behaviour of reinforce / contradict ───────────────

/-- C5 (amended): `reinforce_convention` on a nonexistent convention id
fails with a distinct not-found error and leaves the store unchanged;
`contradict_convention`, whose source performs an unconditional UPDATE
with no existence check, leaves the store unchanged on a nonexistent id
but completes successfully (returning the reset value) rather than
signaling a failure. -/
theorem reinforce_contradict_missing_id (db : MemDB) (now : String)
    (convention_id : Nat) (session_id : Option String)
    (hmiss : ∀ r ∈ db.conventions, r.id ≠ convention_id) :
    reinforce_convention db now convention_id session_id
      = .error ("Convention " ++ toString convention_id ++ " not found") ∧
    contradict_convention db now convention_id = .ok (0.3, db) := by
  have hfind : db.conventions.find? (fun r => r.id == convention_id) = none :=
    List.find?_eq_none.mpr (fun x hx => by simp [hmiss x hx])
  constructor
  · simp only [reinforce_convention, hfind]
  · have hmap : db.conventions.map (fun r =>
        if r.id == convention_id then
          { r with confidence := (0.3 : ℚ), updated_at := now }
        else r) = db.conventions :=
      map_update_none _ _ _ (fun y hy => by simp [hmiss y hy])
    simp only [contradict_convention, CONTRADICTION_RESET, hmap]

/-- Witness for C5's amended theorem on an explicit store. -/
theorem reinforce_contradict_missing_id_witness :
    reinforce_convention
        ⟨[], [⟨1, "naming", "kebab", none, "correction", "personal", "t", "t", 0.5,
          none, 1⟩], [], []⟩ "t2" 2 none
      = .error ("Convention " ++ toString 2 ++ " not found") ∧
    contradict_convention
        ⟨[], [⟨1, "naming", "kebab", none, "correction", "personal", "t", "t", 0.5,
          none, 1⟩], [], []⟩ "t2" 2
      = .ok (0.3, ⟨[], [⟨1, "naming", "kebab", none, "correction", "personal", "t",
          "t", 0.5, none, 1⟩], [], []⟩) :=
  reinforce_contradict_missing_id _ "t2" 2 none (by simp)

/-- C5 counterexample: contradicting a nonexistent id does not signal
any failure — the call returns successfully with the reset value and
the untouched store, refuting the claim that both operations fail with
a not-found condition. -/
theorem contradict_missing_id_refuted :
    contradict_convention
        ⟨[], [⟨1, "naming", "kebab", none, "correction", "personal", "t", "t", 0.5,
          none, 1⟩], [], []⟩ "t2" 2
      = .ok (CONTRADICTION_RESET, ⟨[], [⟨1, "naming", "kebab", none, "correction",
          "personal", "t", "t", 0.5, none, 1⟩], [], []⟩) ∧
    (contradict_convention
        ⟨[], [⟨1, "naming", "kebab", none, "correction", "personal", "t", "t", 0.5,
          none, 1⟩], [], []⟩ "t2" 2).isOk = true := by
  constructor
  · rfl
  · rfl

-- ── C4: record_convention upsert ─────────────────────────────────────

/-- C4: `record_convention` on an existing `(category, pattern)` key
applies the correction delta (new confidence `min(old + 0.2, 1.0)`),
refreshes `updated_at`, and increments `distinct_sessions` only when
the supplied session id differs from the stored one; on a missing key
it inserts a new row with confidence `0.5` and `distinct_sessions = 1`. -/
theorem record_convention_spec (db : MemDB) (now category pattern : String)
    (example_text : Option String) (source scope : String)
    (session_id : Option String) :
    (∀ l1 l2 ex, db.conventions = l1 ++ ex :: l2 →
      ex.category = category → ex.pattern = pattern →
      (∀ y ∈ l1, ¬(y.category = category ∧ y.pattern = pattern)) →
      (∀ y ∈ l1, y.id ≠ ex.id) → (∀ y ∈ l2, y.id ≠ ex.id) →
      sessionOk db session_id = true →
      record_convention db now category pattern example_text source scope session_id
        = .ok (ex.id, { db with conventions := l1 ++
            { ex with
              confidence := min (ex.confidence + 0.2) 1.0,
              distinct_sessions :=
                if pyTruthy session_id && session_id != ex.session_id then
                  ex.distinct_sessions + 1
                else ex.distinct_sessions,
              session_id := session_id,
              updated_at := now } :: l2 })) ∧
    (∀ ex : ConvRow,
      (if pyTruthy session_id && session_id != ex.session_id then
          ex.distinct_sessions + 1
        else ex.distinct_sessions) ≠ ex.distinct_sessions →
      session_id ≠ ex.session_id) ∧
    ((∀ r ∈ db.conventions, ¬(r.category = category ∧ r.pattern = pattern)) →
      validScope scope = true → sessionOk db session_id = true →
      record_convention db now category pattern example_text source scope session_id
        = .ok (nextConvId db, { db with conventions := db.conventions ++
            [⟨nextConvId db, category, pattern, example_text, source, scope, now, now,
              0.5, session_id, 1⟩] })) := by
  refine ⟨?_, ?_, ?_⟩
  · intro l1 l2 ex hdb hcat hpat h1 hi1 hi2 hsess
    rw [record_convention_update_eq db now category pattern example_text source scope
      session_id l1 l2 ex hdb hcat hpat h1 hi1 hi2 hsess]
    simp only [CORRECTION_DELTA, CONFIDENCE_CAP]
  · intro ex hne heq
    apply hne
    simp [heq]
  · intro hnone hvs hsess
    rw [record_convention_insert_eq db now category pattern example_text source scope
      session_id hnone hvs hsess]
    simp only [CONFIDENCE_BASE]

/-- Witness for C4 on an explicit store: re-asserting from a new
session bumps confidence 0.5 → 0.7 and distinct_sessions 1 → 2. -/
theorem record_convention_spec_witness :
    record_convention
        ⟨[], [⟨1, "naming", "kebab", none, "correction", "personal", "t", "t", 0.5,
          some "A", 1⟩], [], ["A", "B"]⟩
        "t2" "naming" "kebab" none "correction" "personal" (some "B")
      = .ok (1, ⟨[], [⟨1, "naming", "kebab", none, "correction", "personal", "t",
          "t2", 0.7, some "B", 2⟩], [], ["A", "B"]⟩) := by
  have h := (record_convention_spec
    ⟨[], [⟨1, "naming", "kebab", none, "correction", "personal", "t", "t", 0.5,
      some "A", 1⟩], [], ["A", "B"]⟩
    "t2" "naming" "kebab" none "correction" "personal" (some "B")).1 [] []
    ⟨1, "naming", "kebab", none, "correction", "personal", "t", "t", 0.5, some "A", 1⟩
    rfl rfl rfl (by simp) (by simp) (by simp) rfl
  rw [h]
  norm_num [pyTruthy]
  exact ⟨by decide, by decide⟩

-- ── C10: session-id frame effects of the convention writes ───────────

/-- C10: on its update path `record_convention` stores the supplied
session id unconditionally — overwriting a stored id with null when
none is supplied, without touching `distinct_sessions` — whereas
`reinforce_convention` keeps the stored id unless a truthy differing id
is supplied.  Consequently, after a re-assertion with a null session
id, a later assertion from the original contributing session bumps
`distinct_sessions` again: the scenario ends with `distinct_sessions =
2` although session "A" is the only session that ever contributed. -/
theorem record_convention_session_unconditional
    (db : MemDB) (now category pattern : String) (example_text : Option String)
    (source scope : String) (session_id : Option String) (convention_id : Nat) :
    (∀ l1 l2 ex, db.conventions = l1 ++ ex :: l2 →
      ex.category = category → ex.pattern = pattern →
      (∀ y ∈ l1, ¬(y.category = category ∧ y.pattern = pattern)) →
      (∀ y ∈ l1, y.id ≠ ex.id) → (∀ y ∈ l2, y.id ≠ ex.id) →
      record_convention db now category pattern example_text source scope none
        = .ok (ex.id, { db with conventions := l1 ++
            { ex with
              confidence := min (ex.confidence + 0.2) 1.0,
              distinct_sessions := ex.distinct_sessions,
              session_id := none,
              updated_at := now } :: l2 })) ∧
    (∀ l1 l2 ex, db.conventions = l1 ++ ex :: l2 →
      ex.id = convention_id →
      (∀ y ∈ l1, y.id ≠ convention_id) → (∀ y ∈ l2, y.id ≠ convention_id) →
      sessionOk db
        (if pyTruthy session_id && session_id != ex.session_id then session_id
         else ex.session_id) = true →
      reinforce_convention db now convention_id session_id
        = .ok (min (ex.confidence + 0.1) 1.0, { db with conventions := l1 ++
            { ex with
              confidence := min (ex.confidence + 0.1) 1.0,
              distinct_sessions :=
                if pyTruthy session_id && session_id != ex.session_id then
                  ex.distinct_sessions + 1
                else ex.distinct_sessions,
              session_id :=
                if pyTruthy session_id && session_id != ex.session_id then session_id
                else ex.session_id,
              updated_at := now } :: l2 })) ∧
    record_convention ⟨[], [], [], ["A"]⟩ "t1" "naming" "kebab" none "correction"
        "personal" (some "A")
      = .ok (1, ⟨[], [⟨1, "naming", "kebab", none, "correction", "personal", "t1",
          "t1", 0.5, some "A", 1⟩], [], ["A"]⟩) ∧
    record_convention ⟨[], [⟨1, "naming", "kebab", none, "correction", "personal",
          "t1", "t1", 0.5, some "A", 1⟩], [], ["A"]⟩ "t2" "naming" "kebab" none
        "correction" "personal" none
      = .ok (1, ⟨[], [⟨1, "naming", "kebab", none, "correction", "personal", "t1",
          "t2", 0.7, none, 1⟩], [], ["A"]⟩) ∧
    record_convention ⟨[], [⟨1, "naming", "kebab", none, "correction", "personal",
          "t1", "t2", 0.7, none, 1⟩], [], ["A"]⟩ "t3" "naming" "kebab" none
        "correction" "personal" (some "A")
      = .ok (1, ⟨[], [⟨1, "naming", "kebab", none, "correction", "personal", "t1",
          "t3", 0.9, some "A", 2⟩], [], ["A"]⟩) := by
  refine ⟨?_, ?_, ?_, ?_, ?_⟩
  · intro l1 l2 ex hdb hcat hpat h1 hi1 hi2
    rw [record_convention_update_eq db now category pattern example_text source scope
      none l1 l2 ex hdb hcat hpat h1 hi1 hi2 rfl]
    simp [pyTruthy, CORRECTION_DELTA, CONFIDENCE_CAP]
  · intro l1 l2 ex hdb hid hi1 hi2 hsess
    rw [reinforce_convention_update_eq db now convention_id session_id l1 l2 ex hdb
      hid hi1 hi2 hsess]
    simp only [REINFORCE_DELTA, CONFIDENCE_CAP]
  · rw [record_convention_insert_eq ⟨[], [], [], ["A"]⟩ "t1" "naming" "kebab" none
      "correction" "personal" (some "A") (by simp) rfl rfl]
    norm_num [nextConvId, CONFIDENCE_BASE]
  · rw [record_convention_update_eq ⟨[], [⟨1, "naming", "kebab", none, "correction",
      "personal", "t1", "t1", 0.5, some "A", 1⟩], [], ["A"]⟩ "t2" "naming" "kebab"
      none "correction" "personal" none [] []
      ⟨1, "naming", "kebab", none, "correction", "personal", "t1", "t1", 0.5,
        some "A", 1⟩ rfl rfl rfl (by simp) (by simp) (by simp) rfl]
    norm_num [pyTruthy, CORRECTION_DELTA, CONFIDENCE_CAP]
  · rw [record_convention_update_eq ⟨[], [⟨1, "naming", "kebab", none, "correction",
      "personal", "t1", "t2", 0.7, none, 1⟩], [], ["A"]⟩ "t3" "naming" "kebab"
      none "correction" "personal" (some "A") [] []
      ⟨1, "naming", "kebab", none, "correction", "personal", "t1", "t2", 0.7,
        none, 1⟩ rfl rfl rfl (by simp) (by simp) (by simp) rfl]
    norm_num [pyTruthy, CORRECTION_DELTA, CONFIDENCE_CAP]
    exact ⟨by decide, by decide⟩

/-- Witness for C10 on an explicit store: re-asserting with a null
session id overwrites the stored session id with null. -/
theorem record_convention_session_unconditional_witness :
    record_convention ⟨[], [⟨1, "naming", "kebab", none, "correction", "personal",
        "t", "t", 0.5, some "A", 1⟩], [], []⟩ "t2" "naming" "kebab" none
        "correction" "personal" none
      = .ok (1, ⟨[], [⟨1, "naming", "kebab", none, "correction", "personal", "t",
          "t2", 0.7, none, 1⟩], [], []⟩) := by
  have h := (record_convention_session_unconditional
    ⟨[], [⟨1, "naming", "kebab", none, "correction", "personal", "t", "t", 0.5,
      some "A", 1⟩], [], []⟩ "t2" "naming" "kebab" none "correction" "personal"
    none 1).1 [] []
    ⟨1, "naming", "kebab", none, "correction", "personal", "t", "t", 0.5,
      some "A", 1⟩ rfl rfl rfl (by simp) (by simp) (by simp)
  rw [h]
  norm_num

-- ── C3: record_fix dedup by normalized hash ──────────────────────────

/-- C3: error texts that normalize identically produce the same
`error_hash` and resolve to the same row: the first call inserts a row
with `hit_count = 1`; a subsequent call on an identically-normalizing
text bumps exactly that row's `hit_count` by one and refreshes
`updated_at` in place, inserting nothing; and both paths of
`record_fix` preserve the at-most-one-row-per-`error_hash`
invariant. -/
theorem record_fix_dedup (digest : String → String) (db : MemDB)
    (now t1 t2 root_cause fx : String) (resource provider : Option String)
    (validated : Int) (scope : String) (session_id : Option String)
    (hnorm : normalize_error t1 = normalize_error t2) :
    error_hash digest t1 = error_hash digest t2 ∧
    ((∀ y ∈ db.fixes, y.error_hash ≠ error_hash digest t1) →
      validScope scope = true → sessionOk db session_id = true →
      record_fix digest db now t1 root_cause fx resource provider validated scope
          session_id
        = .ok (nextFixId db, { db with fixes := db.fixes ++
            [⟨nextFixId db, error_hash digest t1, t1, root_cause, fx, resource,
              provider, validated, scope, now, now, 1, session_id⟩] })) ∧
    (∀ l1 l2 ex, db.fixes = l1 ++ ex :: l2 →
      ex.error_hash = error_hash digest t1 →
      (∀ y ∈ l1, y.error_hash ≠ error_hash digest t1) →
      (∀ y ∈ l1, y.id ≠ ex.id) → (∀ y ∈ l2, y.id ≠ ex.id) →
      record_fix digest db now t2 root_cause fx resource provider validated scope
          session_id
        = .ok (ex.id, { db with fixes := l1 ++
            { ex with hit_count := ex.hit_count + 1, updated_at := now } :: l2 })) ∧
    (∀ db2 rid, List.Pairwise (fun a b => a.error_hash ≠ b.error_hash) db.fixes →
      record_fix digest db now t1 root_cause fx resource provider validated scope
          session_id = .ok (rid, db2) →
      List.Pairwise (fun a b => a.error_hash ≠ b.error_hash) db2.fixes) := by
  have hhash : error_hash digest t1 = error_hash digest t2 := congrArg digest hnorm
  refine ⟨hhash, ?_, ?_, ?_⟩
  · intro hnone hvs hsess
    exact record_fix_insert_eq digest db now t1 root_cause fx resource provider
      validated scope session_id hnone hvs hsess
  · intro l1 l2 ex hdb hex h1 hi1 hi2
    have h := record_fix_update_eq digest db now t2 root_cause fx resource provider
      validated scope session_id l1 l2 ex hdb (hhash ▸ hex)
      (fun y hy => hhash ▸ h1 y hy) hi1 hi2
    rw [h]
    simp only [bumpFix]
  · intro db2 rid hpw hok
    cases hfind : db.fixes.find? (fun r => r.error_hash == error_hash digest t1) with
    | some ex =>
        simp only [record_fix, hfind, Except.ok.injEq, Prod.mk.injEq] at hok
        obtain ⟨-, h2⟩ := hok
        subst h2
        have hface : ∀ x : FixRow,
            ((if x.id == ex.id then bumpFix now x else x) : FixRow).error_hash
              = x.error_hash := by
          intro x
          by_cases hx : (x.id == ex.id) = true <;> simp [hx, bumpFix]
        refine (List.pairwise_map).mpr ?_
        refine hpw.imp ?_
        intro a b hab
        rw [hface a, hface b]
        exact hab
    | none =>
        simp only [record_fix, hfind] at hok
        by_cases hg : (validScope scope && sessionOk db session_id) = true
        · rw [if_pos hg] at hok
          simp only [Except.ok.injEq, Prod.mk.injEq] at hok
          obtain ⟨-, h2⟩ := hok
          subst h2
          refine (List.pairwise_append).mpr ⟨hpw, by simp, ?_⟩
          intro a ha b hb
          have hne := List.find?_eq_none.mp hfind a ha
          simp only [beq_iff_eq] at hne
          simp only [List.mem_singleton] at hb
          subst hb
          simpa using hne
        · rw [if_neg hg] at hok
          exact absurd hok (by simp)

/-- Witness for C3 on an explicit store: a case/whitespace variant of a
recorded error hashes identically and bumps the same row in place. -/
theorem record_fix_dedup_witness :
    error_hash (fun s => s) "Error X" = error_hash (fun s => s) " error  x " ∧
    record_fix (fun s => s)
        ⟨[⟨1, "error x", "Error X", "rc", "fx", none, none, 0, "personal", "t", "t",
          1, none⟩], [], [], []⟩ "t2" " error  x " "rc" "fx" none none 0 "personal"
        none
      = .ok (1, ⟨[⟨1, "error x", "Error X", "rc", "fx", none, none, 0, "personal",
          "t", "t2", 2, none⟩], [], [], []⟩) := by
  have h := record_fix_dedup (fun s => s)
    ⟨[⟨1, "error x", "Error X", "rc", "fx", none, none, 0, "personal", "t", "t",
      1, none⟩], [], [], []⟩
    "t2" "Error X" " error  x " "rc" "fx" none none 0 "personal" none rfl
  refine ⟨h.1, ?_⟩
  have h3 := h.2.2.1 [] []
    ⟨1, "error x", "Error X", "rc", "fx", none, none, 0, "personal", "t", "t",
      1, none⟩ rfl rfl (by simp) (by simp) (by simp)
  rw [h3]
  rfl

-- ── C6: fork export content ──────────────────────────────────────────

theorem copyFixRows_map_core (n : Nat) (l : List FixRow) :
    (copyFixRows n l).map FixRow.core = l.map FixRow.core := by
  induction l generalizing n with
  | nil => rfl
  | cons a t ih => simp [copyFixRows, FixRow.core, ih]

theorem copyConvRows_map_core (n : Nat) (l : List ConvRow) :
    (copyConvRows n l).map ConvRow.core = l.map ConvRow.core := by
  induction l generalizing n with
  | nil => rfl
  | cons a t ih => simp [copyConvRows, ConvRow.core, ih]

theorem copyQuirkRows_map_core (n : Nat) (l : List QuirkRow) :
    (copyQuirkRows n l).map QuirkRow.core = l.map QuirkRow.core := by
  induction l generalizing n with
  | nil => rfl
  | cons a t ih => simp [copyQuirkRows, QuirkRow.core, ih]

theorem mem_copyFixRows (n : Nat) (l : List FixRow) (f : FixRow)
    (h : f ∈ copyFixRows n l) :
    ∃ g ∈ l, f.scope = g.scope ∧ f.session_id = none := by
  induction l generalizing n with
  | nil => cases h
  | cons a t ih =>
      simp only [copyFixRows, List.mem_cons] at h
      rcases h with h | h
      · exact ⟨a, List.mem_cons_self a t, by simp [h], by simp [h]⟩
      · obtain ⟨g, hg, hs, hn⟩ := ih (n + 1) h
        exact ⟨g, List.mem_cons_of_mem _ hg, hs, hn⟩

theorem mem_copyConvRows (n : Nat) (l : List ConvRow) (c : ConvRow)
    (h : c ∈ copyConvRows n l) :
    ∃ g ∈ l, c.scope = g.scope ∧ c.confidence = g.confidence ∧
      c.session_id = none ∧ c.distinct_sessions = 1 := by
  induction l generalizing n with
  | nil => cases h
  | cons a t ih =>
      simp only [copyConvRows, List.mem_cons] at h
      rcases h with h | h
      · exact ⟨a, List.mem_cons_self a t, by simp [h], by simp [h], by simp [h],
          by simp [h]⟩
      · obtain ⟨g, hg, hs, hc, hn, hd⟩ := ih (n + 1) h
        exact ⟨g, List.mem_cons_of_mem _ hg, hs, hc, hn, hd⟩

theorem mem_copyQuirkRows (n : Nat) (l : List QuirkRow) (q : QuirkRow)
    (h : q ∈ copyQuirkRows n l) :
    ∃ g ∈ l, q.scope = g.scope ∧ q.session_id = none := by
  induction l generalizing n with
  | nil => cases h
  | cons a t ih =>
      simp only [copyQuirkRows, List.mem_cons] at h
      rcases h with h | h
      · exact ⟨a, List.mem_cons_self a t, by simp [h], by simp [h]⟩
      · obtain ⟨g, hg, hs, hn⟩ := ih (n + 1) h
        exact ⟨g, List.mem_cons_of_mem _ hg, hs, hn⟩

theorem contains_team_scopes (s : String) :
    (forkScopes "team").contains s = (s == "team" || s == "org") := by
  have h : forkScopes "team" = ["team", "org"] := rfl
  rw [h]
  by_cases h1 : s = "team" <;> by_cases h2 : s = "org" <;>
    simp [List.contains_cons, h1, h2]

theorem contains_org_scopes (s : String) :
    (forkScopes "org").contains s = (s == "org") := by
  have h : forkScopes "org" = ["org"] := rfl
  rw [h]
  by_cases h2 : s = "org" <;> simp [List.contains_cons, h2]

/-- C6: fork export with filter "team" copies exactly the team- and
org-scoped rows of all three entity tables (content verbatim, in
source order) and no personal row; filter "org" copies only org rows;
the destination sessions table is empty, every copied row has a null
session id, every copied convention has `distinct_sessions = 1`, and
each copied convention keeps the source confidence verbatim. -/
theorem export_for_fork_spec (src : MemDB) :
    ((export_for_fork src "team").fixes.map FixRow.core
      = (src.fixes.filter (fun f => f.scope == "team" || f.scope == "org")).map
          FixRow.core) ∧
    (∀ f ∈ (export_for_fork src "team").fixes,
      (f.scope = "team" ∨ f.scope = "org") ∧ f.scope ≠ "personal" ∧
        f.session_id = none) ∧
    ((export_for_fork src "team").conventions.map ConvRow.core
      = (src.conventions.filter (fun c => c.scope == "team" || c.scope == "org")).map
          ConvRow.core) ∧
    (∀ c ∈ (export_for_fork src "team").conventions,
      (c.scope = "team" ∨ c.scope = "org") ∧ c.session_id = none ∧
        c.distinct_sessions = 1 ∧
        ∃ g ∈ src.conventions, c.confidence = g.confidence) ∧
    ((export_for_fork src "team").quirks.map QuirkRow.core
      = (src.quirks.filter (fun q => q.scope == "team" || q.scope == "org")).map
          QuirkRow.core) ∧
    (∀ q ∈ (export_for_fork src "team").quirks,
      (q.scope = "team" ∨ q.scope = "org") ∧ q.session_id = none) ∧
    (export_for_fork src "team").sessions = [] ∧
    ((export_for_fork src "org").fixes.map FixRow.core
      = (src.fixes.filter (fun f => f.scope == "org")).map FixRow.core) ∧
    (∀ f ∈ (export_for_fork src "org").fixes,
      f.scope = "org" ∧ f.session_id = none) ∧
    ((export_for_fork src "org").conventions.map ConvRow.core
      = (src.conventions.filter (fun c => c.scope == "org")).map ConvRow.core) ∧
    (∀ c ∈ (export_for_fork src "org").conventions,
      c.scope = "org" ∧ c.session_id = none ∧ c.distinct_sessions = 1) ∧
    ((export_for_fork src "org").quirks.map QuirkRow.core
      = (src.quirks.filter (fun q => q.scope == "org")).map QuirkRow.core) ∧
    (∀ q ∈ (export_for_fork src "org").quirks,
      q.scope = "org" ∧ q.session_id = none) ∧
    (export_for_fork src "org").sessions = [] := by
  refine ⟨?_, ?_, ?_, ?_, ?_, ?_, rfl, ?_, ?_, ?_, ?_, ?_, ?_, rfl⟩
  · simp only [export_for_fork]
    rw [copyFixRows_map_core]
    exact congrArg _ (List.filter_congr (fun a _ => contains_team_scopes a.scope))
  · intro f hf
    simp only [export_for_fork] at hf
    obtain ⟨g, hg, hs, hn⟩ := mem_copyFixRows _ _ _ hf
    have hp := (List.mem_filter.mp hg).2
    rw [contains_team_scopes] at hp
    have hor : g.scope = "team" ∨ g.scope = "org" := by simpa using hp
    refine ⟨hs ▸ hor, ?_, hn⟩
    rw [hs]
    rcases hor with h | h <;> simp [h]
  · simp only [export_for_fork]
    rw [copyConvRows_map_core]
    exact congrArg _ (List.filter_congr (fun a _ => contains_team_scopes a.scope))
  · intro c hc
    simp only [export_for_fork] at hc
    obtain ⟨g, hg, hs, hconf, hn, hd⟩ := mem_copyConvRows _ _ _ hc
    have hp := (List.mem_filter.mp hg).2
    rw [contains_team_scopes] at hp
    exact ⟨hs ▸ (by simpa using hp), hn, hd, g, (List.mem_filter.mp hg).1, hconf⟩
  · simp only [export_for_fork]
    rw [copyQuirkRows_map_core]
    exact congrArg _ (List.filter_congr (fun a _ => contains_team_scopes a.scope))
  · intro q hq
    simp only [export_for_fork] at hq
    obtain ⟨g, hg, hs, hn⟩ := mem_copyQuirkRows _ _ _ hq
    have hp := (List.mem_filter.mp hg).2
    rw [contains_team_scopes] at hp
    exact ⟨hs ▸ (by simpa using hp), hn⟩
  · simp only [export_for_fork]
    rw [copyFixRows_map_core]
    exact congrArg _ (List.filter_congr (fun a _ => contains_org_scopes a.scope))
  · intro f hf
    simp only [export_for_fork] at hf
    obtain ⟨g, hg, hs, hn⟩ := mem_copyFixRows _ _ _ hf
    have hp := (List.mem_filter.mp hg).2
    rw [contains_org_scopes] at hp
    exact ⟨hs ▸ (by simpa using hp), hn⟩
  · simp only [export_for_fork]
    rw [copyConvRows_map_core]
    exact congrArg _ (List.filter_congr (fun a _ => contains_org_scopes a.scope))
  · intro c hc
    simp only [export_for_fork] at hc
    obtain ⟨g, hg, hs, hconf, hn, hd⟩ := mem_copyConvRows _ _ _ hc
    have hp := (List.mem_filter.mp hg).2
    rw [contains_org_scopes] at hp
    exact ⟨hs ▸ (by simpa using hp), hn, hd⟩
  · simp only [export_for_fork]
    rw [copyQuirkRows_map_core]
    exact congrArg _ (List.filter_congr (fun a _ => contains_org_scopes a.scope))
  · intro q hq
    simp only [export_for_fork] at hq
    obtain ⟨g, hg, hs, hn⟩ := mem_copyQuirkRows _ _ _ hq
    have hp := (List.mem_filter.mp hg).2
    rw [contains_org_scopes] at hp
    exact ⟨hs ▸ (by simpa using hp), hn⟩

/-- Witness for C6 on the test fixture store: filter "team" keeps the
team and org fixes only, and the copied team convention has a null
session id and `distinct_sessions = 1` with confidence preserved. -/
theorem export_for_fork_spec_witness :
    ((export_for_fork
        ⟨[⟨1, "h1", "personal fix", "rc1", "f1", none, none, 0, "personal", "t", "t",
            1, some "s"⟩,
          ⟨2, "h2", "team fix", "rc2", "f2", none, none, 0, "team", "t", "t", 1,
            some "s"⟩,
          ⟨3, "h3", "org fix", "rc3", "f3", none, none, 0, "org", "t", "t", 1,
            some "s"⟩],
         [⟨1, "naming", "personal conv", none, "correction", "personal", "t", "t",
            0.8, some "s", 3⟩,
          ⟨2, "naming", "team conv", none, "correction", "team", "t", "t", 0.9,
            some "s", 5⟩],
         [⟨1, "ec2", "personal quirk", none, none, "personal", "t", "t", some "s"⟩,
          ⟨2, "rds", "org quirk", none, none, "org", "t", "t", some "s"⟩],
         ["s"]⟩ "team").fixes.map FixRow.core
      = [FixRow.core ⟨2, "h2", "team fix", "rc2", "f2", none, none, 0, "team", "t",
          "t", 1, some "s"⟩,
         FixRow.core ⟨3, "h3", "org fix", "rc3", "f3", none, none, 0, "org", "t",
          "t", 1, some "s"⟩]) ∧
    ((⟨1, "naming", "team conv", none, "correction", "team", "t", "t", 0.9, none, 1⟩
        : ConvRow).scope = "team" ∨
      (⟨1, "naming", "team conv", none, "correction", "team", "t", "t", 0.9, none, 1⟩
        : ConvRow).scope = "org") ∧
    (⟨1, "naming", "team conv", none, "correction", "team", "t", "t", 0.9, none, 1⟩
      : ConvRow).session_id = none ∧
    (⟨1, "naming", "team conv", none, "correction", "team", "t", "t", 0.9, none, 1⟩
      : ConvRow).distinct_sessions = 1 := by
  have h := export_for_fork_spec
    ⟨[⟨1, "h1", "personal fix", "rc1", "f1", none, none, 0, "personal", "t", "t",
        1, some "s"⟩,
      ⟨2, "h2", "team fix", "rc2", "f2", none, none, 0, "team", "t", "t", 1,
        some "s"⟩,
      ⟨3, "h3", "org fix", "rc3", "f3", none, none, 0, "org", "t", "t", 1,
        some "s"⟩],
     [⟨1, "naming", "personal conv", none, "correction", "personal", "t", "t",
        0.8, some "s", 3⟩,
      ⟨2, "naming", "team conv", none, "correction", "team", "t", "t", 0.9,
        some "s", 5⟩],
     [⟨1, "ec2", "personal quirk", none, none, "personal", "t", "t", some "s"⟩,
      ⟨2, "rds", "org quirk", none, none, "org", "t", "t", some "s"⟩],
     ["s"]⟩
  refine ⟨h.1.trans ?_, ?_⟩
  · rfl
  · have hmem := h.2.2.2.1
      ⟨1, "naming", "team conv", none, "correction", "team", "t", "t", 0.9, none, 1⟩
      ?_
    · exact ⟨hmem.1, hmem.2.1, hmem.2.2.1⟩
    · exact List.mem_singleton.mpr rfl

-- ── C7: merged query shape and ordering ──────────────────────────────

theorem filter_map_comm {α β : Type} (f : α → β) (p : β → Bool) (l : List α) :
    (l.map f).filter p = (l.filter (fun a => p (f a))).map f := by
  induction l with
  | nil => rfl
  | cons a t ih =>
      by_cases h : p (f a) = true <;> simp [h, ih]

/-- C7: the merged query result has the shape `{canon_results,
memory_results, merged}`, and `merged` is ordered with all overriding
memory entries first (in memory-result order), then all canon entries
in the corpus's own order carrying `overrides_canon = false` and
`override_reason = null`, then all non-overriding memory entries
last. -/
theorem query_with_priority_spec {α : Type} (digest : String → String)
    (canon_results : List α) (db : MemDB) (error_text : String) :
    (query_with_priority digest canon_results db error_text).canon_results
      = canon_results ∧
    (query_with_priority digest canon_results db error_text).memory_results
      = lookup_fix digest db error_text ∧
    (query_with_priority digest canon_results db error_text).merged
      = ((lookup_fix digest db error_text).filter
            (fun f => (should_override f).1)).map
          (fun f => (classifyFix f : MergedEntry α))
        ++ canon_results.map (fun c => (canonEntry c : MergedEntry α))
        ++ ((lookup_fix digest db error_text).filter
            (fun f => !(should_override f).1)).map
          (fun f => (classifyFix f : MergedEntry α)) ∧
    (∀ f : FixRow, ((classifyFix f : MergedEntry α)).source = .memory ∧
      ((classifyFix f : MergedEntry α)).overrides_canon = (should_override f).1 ∧
      ((classifyFix f : MergedEntry α)).override_reason = (should_override f).2 ∧
      ((classifyFix f : MergedEntry α)).entry = Sum.inr f) ∧
    (∀ c : α, ((canonEntry c : MergedEntry α)).source = .canon ∧
      ((canonEntry c : MergedEntry α)).overrides_canon = false ∧
      ((canonEntry c : MergedEntry α)).override_reason = none ∧
      ((canonEntry c : MergedEntry α)).entry = Sum.inl c) ∧
    (∀ f ∈ (lookup_fix digest db error_text).filter
        (fun f => (should_override f).1), (should_override f).1 = true) ∧
    (∀ f ∈ (lookup_fix digest db error_text).filter
        (fun f => !(should_override f).1), (should_override f).1 = false) := by
  refine ⟨rfl, rfl, ?_, fun f => ⟨rfl, rfl, rfl, rfl⟩, fun c => ⟨rfl, rfl, rfl, rfl⟩,
    ?_, ?_⟩
  · simp only [query_with_priority]
    rw [filter_map_comm, filter_map_comm]
    rfl
  · intro f hf
    exact (List.mem_filter.mp hf).2
  · intro f hf
    have := (List.mem_filter.mp hf).2
    simpa using this

/-- Witness for C7: with no matching memory fixes the merged list is
exactly the canon entries in corpus order. -/
theorem query_with_priority_spec_witness :
    (query_with_priority (fun s => s) ["sig"] MemDB.empty "e").canon_results
      = ["sig"] ∧
    (query_with_priority (fun s => s) ["sig"] MemDB.empty "e").merged
      = [⟨.canon, false, none, Sum.inl "sig"⟩] := by
  have h := query_with_priority_spec (fun s => s) ["sig"] MemDB.empty "e"
  have hl : lookup_fix (fun s => s) MemDB.empty "e" = [] := by
    simp [lookup_fix, MemDB.empty]
  refine ⟨h.1, ?_⟩
  rw [h.2.2.1, hl]
  rfl

-- ── C9: fork export failure behaviour ────────────────────────────────

/-- C9 (amended): the export fails when the destination directory
cannot be created — with the filesystem untouched — and fails when the
source database cannot be read; but in the latter case the
destination file, already created and initialized with the empty v2
schema, is left behind (the source has no error handling and deletes
nothing on failure), so a usable empty destination database remains. -/
theorem export_for_fork_io_failure (fs : ForkFS) (scope_filter : String) :
    (fs.mkdirOk = false →
      export_for_fork_io fs scope_filter
        = (.error "cannot create destination directory", fs)) ∧
    (fs.mkdirOk = true → fs.srcFile = none →
      export_for_fork_io fs scope_filter
        = (.error "cannot read source database",
           { fs with dstFile := some MemDB.empty })) ∧
    (∀ src, fs.mkdirOk = true → fs.srcFile = some src →
      export_for_fork_io fs scope_filter
        = (.ok (export_for_fork src scope_filter),
           { fs with dstFile := some (export_for_fork src scope_filter) })) := by
  refine ⟨fun h => ?_, fun h hs => ?_, fun src h hs => ?_⟩
  · simp [export_for_fork_io, h]
  · simp [export_for_fork_io, h, hs]
  · simp [export_for_fork_io, h, hs]

/-- Witness for C9's amended theorem at concrete filesystem states. -/
theorem export_for_fork_io_failure_witness :
    export_for_fork_io ⟨some MemDB.empty, none, false⟩ "team"
      = (.error "cannot create destination directory",
         ⟨some MemDB.empty, none, false⟩) ∧
    export_for_fork_io ⟨none, none, true⟩ "team"
      = (.error "cannot read source database", ⟨none, some MemDB.empty, true⟩) :=
  ⟨(export_for_fork_io_failure ⟨some MemDB.empty, none, false⟩ "team").1 rfl,
   (export_for_fork_io_failure ⟨none, none, true⟩ "team").2.1 rfl rfl⟩

/-- C9 counterexample: with a writable destination directory and an
unreadable source, the export aborts with an error, yet the
destination file remains on disk as a usable schema-initialized empty
database — refuting the claim that no usable partial destination file
is left on failure. -/
theorem export_io_partial_file_refuted :
    (export_for_fork_io ⟨none, none, true⟩ "team").1.isOk = false ∧
    (export_for_fork_io ⟨none, none, true⟩ "team").2.dstFile = some MemDB.empty :=
  ⟨rfl, rfl⟩

end MemoryLib
